import Mathlib

/-!
# Verification of the circuit-padding / container spec against the tor sources

This file shallowly embeds the parts of the repository that the spec talks
about and proves (or refutes) the spec's claims about them:

* the ring-buffer message queue of `src/lib/container/mqueue.c`
  (represented with a start index `first` and a length `len`);
* the second ring-buffer message queue embedded at the end of
  `src/lib/fs/mapstore.c` (represented with `head` and `tail` indices,
  one slot kept free);
* the padding-statistics accounting of `src/feature/stats/rephist.c`;
* parts of the circuit-padding framework (overhead governor, slot
  lifecycle, machine registry, negotiation codec, histogram sampling)
  whose implementation is not among the sources, modelled from the spec.

C pointers held in the queues are modelled as `Option α` with `none`
standing for `NULL`; `size_t` arithmetic on indices is modelled by `Nat`
(all subtractions in the source are guarded so no wrap-around occurs);
the `uint64_t` statistics counters are modelled by `Nat` reduced modulo
`2 ^ 64` at each increment.
-/

/-- The word size of the `uint64_t` counters in `rephist.c`. -/
def U64 : Nat := 2 ^ 64

/-- `memmove`-style copy inside a list modelled array: copy `n` cells
starting at `src` to the positions starting at `dst`.  The only use in
the sources copies to a disjoint, higher region, where this sequential
copy agrees with `memmove`. -/
def memmoveUp {α : Type} : List (Option α) → Nat → Nat → Nat → List (Option α)
  | l, _, _, 0 => l
  | l, src, dst, n + 1 =>
      memmoveUp (l.set dst (l.getD src none)) (src + 1) (dst + 1) n

/-- A queue operation: push an item or pop one.  (`NULL` is never pushed:
items are bare values of `α`.) -/
inductive QOp (α : Type) where
  | push : α → QOp α
  | pop : QOp α
deriving DecidableEq, Repr

namespace MQ

/-- The `mqueue_t` of `src/lib/container/mqueue.c`: a ring buffer of
`capacity` cells whose live region starts at index `first` and holds
`len` items. -/
structure mqueue_t (α : Type) where
  members : List (Option α)
  capacity : Nat
  first : Nat
  len : Nat
deriving DecidableEq, Repr

/-- `INITIAL_SIZE` from mqueue.c. -/
def INITIAL_SIZE : Nat := 16

/-- `mqueue_init` from mqueue.c: capacity 16, zeroed (= all-`NULL`,
`tor_calloc`) member array, empty queue. -/
def mqueue_init (α : Type) : mqueue_t α :=
  { members := List.replicate INITIAL_SIZE none
    capacity := INITIAL_SIZE
    first := 0
    len := 0 }

/-- `mqueue_len` from mqueue.c. -/
def mqueue_len {α : Type} (mq : mqueue_t α) : Nat :=
  mq.len

/-- `mqueue_expand` from mqueue.c: double the capacity (`tor_reallocarray`
leaves the fresh cells unspecified; we model them as `none`, which no
reachable read ever observes), and, when the code's test
`capacity - first > len` holds, `memmove` the cells from `first` to the
end of the old array up by `delta = capacity` and advance `first`. -/
def mqueue_expand {α : Type} (mq : mqueue_t α) : mqueue_t α :=
  let new_capacity := mq.capacity * 2
  let new_members := mq.members ++ List.replicate (new_capacity - mq.capacity) none
  if mq.capacity - mq.first > mq.len then
    let delta := new_capacity - mq.capacity
    { members := memmoveUp new_members mq.first (mq.first + delta)
        (mq.capacity - mq.first)
      capacity := new_capacity
      first := mq.first + delta
      len := mq.len }
  else
    { mq with members := new_members, capacity := new_capacity }

/-- `mqueue_push` from mqueue.c: expand when full, then store at the index
computed by the source's branch on `capacity - first < len` (out-of-range
stores, which in C write past the allocation, leave the modelled array
unchanged; no in-range cell receives the item either way). -/
def mqueue_push {α : Type} (mq : mqueue_t α) (item : α) : mqueue_t α :=
  let mq := if mq.len = mq.capacity then mqueue_expand mq else mq
  let idx :=
    if mq.capacity - mq.first < mq.len then
      mq.first - (mq.capacity - mq.len)
    else
      mq.first + mq.len
  { mq with members := mq.members.set idx (some item), len := mq.len + 1 }

/-- `mqueue_pop` from mqueue.c: return `NULL` on an empty queue, else
return the cell at `first`, clear it, and advance `first` with wrap. -/
def mqueue_pop {α : Type} (mq : mqueue_t α) : Option α × mqueue_t α :=
  if mq.len = 0 then
    (none, mq)
  else
    let result := mq.members.getD mq.first none
    let members := mq.members.set mq.first none
    let first1 := mq.first + 1
    let first2 := if first1 = mq.capacity then 0 else first1
    (result, { mq with members := members, first := first2, len := mq.len - 1 })

/-- Run a sequence of operations from `mqueue_init`, collecting the queue
and the list of `mqueue_pop` results in order. -/
def runOps {α : Type} (ops : List (QOp α)) : mqueue_t α × List (Option α) :=
  ops.foldl
    (fun acc op =>
      match op with
      | .push a => (mqueue_push acc.1 a, acc.2)
      | .pop =>
          let r := mqueue_pop acc.1
          (r.2, acc.2 ++ [r.1]))
    (mqueue_init α, [])

/-- The state reached after a sequence of operations. -/
def runState {α : Type} (ops : List (QOp α)) : mqueue_t α :=
  (runOps ops).1

/-- The `mqueue_pop` results observed along a sequence of operations. -/
def popResults {α : Type} (ops : List (QOp α)) : List (Option α) :=
  (runOps ops).2

end MQ

namespace MS

/-- The `mqueue_t` variant at the end of `src/lib/fs/mapstore.c` (it
matches the struct declared in mqueue.h): a ring buffer of `capacity`
cells, live region from `head` up to but not including `tail`, one slot
always kept free. -/
structure mqueue_t (α : Type) where
  members : List (Option α)
  capacity : Nat
  head : Nat
  tail : Nat
deriving DecidableEq, Repr

/-- `INITIAL_SIZE` from the mapstore.c copy. -/
def INITIAL_SIZE : Nat := 16

/-- `mqueue_init` from the mapstore.c copy. -/
def mqueue_init (α : Type) : mqueue_t α :=
  { members := List.replicate INITIAL_SIZE none
    capacity := INITIAL_SIZE
    head := 0
    tail := 0 }

/-- `next_idx` from the mapstore.c copy: successor index with wrap. -/
def next_idx {α : Type} (mq : mqueue_t α) (idx : Nat) : Nat :=
  if idx + 1 = mq.capacity then 0 else idx + 1

/-- `mqueue_len` from the mapstore.c copy. -/
def mqueue_len {α : Type} (mq : mqueue_t α) : Nat :=
  if mq.head ≤ mq.tail then
    mq.tail - mq.head
  else
    (mq.capacity - mq.head) + mq.tail

/-- `mqueue_expand` from the mapstore.c copy: double the capacity and,
when the live region wraps (`tail < head`), move the cells from `head`
to the end of the old array up by `delta = capacity`. -/
def mqueue_expand {α : Type} (mq : mqueue_t α) : mqueue_t α :=
  let new_capacity := mq.capacity * 2
  let new_members := mq.members ++ List.replicate (new_capacity - mq.capacity) none
  if mq.tail < mq.head then
    let delta := new_capacity - mq.capacity
    { members := memmoveUp new_members mq.head (mq.head + delta)
        (mq.capacity - mq.head)
      capacity := new_capacity
      head := mq.head + delta
      tail := mq.tail }
  else
    { mq with members := new_members, capacity := new_capacity }

/-- `mqueue_push` from the mapstore.c copy: expand when the next tail
index would equal `head`, then store at `tail` and advance it. -/
def mqueue_push {α : Type} (mq : mqueue_t α) (item : α) : mqueue_t α :=
  let mq := if next_idx mq mq.tail = mq.head then mqueue_expand mq else mq
  { mq with members := mq.members.set mq.tail (some item)
            tail := next_idx mq mq.tail }

/-- `mqueue_pop` from the mapstore.c copy: return `NULL` when
`head = tail`, else return the cell at `head`, clear it and advance
`head`. -/
def mqueue_pop {α : Type} (mq : mqueue_t α) : Option α × mqueue_t α :=
  if mq.head = mq.tail then
    (none, mq)
  else
    let result := mq.members.getD mq.head none
    let members := mq.members.set mq.head none
    (result, { mq with members := members, head := next_idx mq mq.head })

/-- Run a sequence of operations from `mqueue_init`, collecting the queue
and the list of `mqueue_pop` results in order. -/
def runOps {α : Type} (ops : List (QOp α)) : mqueue_t α × List (Option α) :=
  ops.foldl
    (fun acc op =>
      match op with
      | .push a => (mqueue_push acc.1 a, acc.2)
      | .pop =>
          let r := mqueue_pop acc.1
          (r.2, acc.2 ++ [r.1]))
    (mqueue_init α, [])

/-- The state reached after a sequence of operations. -/
def runState {α : Type} (ops : List (QOp α)) : mqueue_t α :=
  (runOps ops).1

/-- The `mqueue_pop` results observed along a sequence of operations. -/
def popResults {α : Type} (ops : List (QOp α)) : List (Option α) :=
  (runOps ops).2

end MS

namespace SpecQueue

/-- The specification-level queue: a plain list, `push` appends at the
back, `pop` removes at the front (`none` when empty).  This is the FIFO
behaviour the spec ascribes to both mqueue implementations. -/
def runOps {α : Type} (ops : List (QOp α)) : List α × List (Option α) :=
  ops.foldl
    (fun acc op =>
      match op with
      | .push a => (acc.1 ++ [a], acc.2)
      | .pop =>
          match acc.1 with
          | [] => ([], acc.2 ++ [none])
          | x :: xs => (xs, acc.2 ++ [some x]))
    ([], [])

/-- The FIFO pop results along a sequence of operations. -/
def popResults {α : Type} (ops : List (QOp α)) : List (Option α) :=
  (runOps ops).2

end SpecQueue

namespace Rephist

/-- `padding_type_t` from `src/core/or/channelpadding.h` as used by the
`switch` statements of rephist.c. -/
inductive padding_type_t where
  | PADDING_TYPE_DROP
  | PADDING_TYPE_CELL
  | PADDING_TYPE_TOTAL
  | PADDING_TYPE_ENABLED_TOTAL
  | PADDING_TYPE_ENABLED_CELL
deriving DecidableEq, Repr

/-- `padding_counts_t` from rephist.c: ten `uint64_t` cell counters, the
maximum channel-padding timer count, and the first-published timestamp
(modelled as a `Nat` stand-in for the ISO-time string). -/
structure padding_counts_t where
  read_cell_count : Nat
  write_cell_count : Nat
  read_pad_cell_count : Nat
  write_pad_cell_count : Nat
  enabled_read_cell_count : Nat
  enabled_write_cell_count : Nat
  enabled_read_pad_cell_count : Nat
  enabled_write_pad_cell_count : Nat
  read_drop_cell_count : Nat
  write_drop_cell_count : Nat
  maximum_chanpad_timers : Nat
  first_published_at : Nat
deriving DecidableEq, Repr

/-- The zeroed `padding_counts_t` (static storage / `memset` to 0). -/
def zeroed_padding_counts : padding_counts_t :=
  { read_cell_count := 0
    write_cell_count := 0
    read_pad_cell_count := 0
    write_pad_cell_count := 0
    enabled_read_cell_count := 0
    enabled_write_cell_count := 0
    enabled_read_pad_cell_count := 0
    enabled_write_pad_cell_count := 0
    read_drop_cell_count := 0
    write_drop_cell_count := 0
    maximum_chanpad_timers := 0
    first_published_at := 0 }

/-- A `uint64_t` increment: add one modulo `2 ^ 64`. -/
def incr64 (n : Nat) : Nat :=
  (n + 1) % U64

/-- `rep_hist_padding_count_write` from rephist.c, acting on the
`padding_current` statistics passed explicitly. -/
def rep_hist_padding_count_write (type : padding_type_t)
    (s : padding_counts_t) : padding_counts_t :=
  match type with
  | .PADDING_TYPE_DROP =>
      { s with write_drop_cell_count := incr64 s.write_drop_cell_count }
  | .PADDING_TYPE_CELL =>
      { s with write_pad_cell_count := incr64 s.write_pad_cell_count }
  | .PADDING_TYPE_TOTAL =>
      { s with write_cell_count := incr64 s.write_cell_count }
  | .PADDING_TYPE_ENABLED_TOTAL =>
      { s with enabled_write_cell_count := incr64 s.enabled_write_cell_count }
  | .PADDING_TYPE_ENABLED_CELL =>
      { s with enabled_write_pad_cell_count := incr64 s.enabled_write_pad_cell_count }

/-- `rep_hist_padding_count_read` from rephist.c, acting on the
`padding_current` statistics passed explicitly. -/
def rep_hist_padding_count_read (type : padding_type_t)
    (s : padding_counts_t) : padding_counts_t :=
  match type with
  | .PADDING_TYPE_DROP =>
      { s with read_drop_cell_count := incr64 s.read_drop_cell_count }
  | .PADDING_TYPE_CELL =>
      { s with read_pad_cell_count := incr64 s.read_pad_cell_count }
  | .PADDING_TYPE_TOTAL =>
      { s with read_cell_count := incr64 s.read_cell_count }
  | .PADDING_TYPE_ENABLED_TOTAL =>
      { s with enabled_read_cell_count := incr64 s.enabled_read_cell_count }
  | .PADDING_TYPE_ENABLED_CELL =>
      { s with enabled_read_pad_cell_count := incr64 s.enabled_read_pad_cell_count }

/-- One call to either accounting entry point of rephist.c. -/
inductive PadCall where
  | write : padding_type_t → PadCall
  | read : padding_type_t → PadCall
deriving DecidableEq, Repr

/-- Apply one accounting call. -/
def applyCall (s : padding_counts_t) : PadCall → padding_counts_t
  | .write t => rep_hist_padding_count_write t s
  | .read t => rep_hist_padding_count_read t s

/-- Apply a sequence of accounting calls, starting from `s`. -/
def applyCalls (s : padding_counts_t) (calls : List PadCall) : padding_counts_t :=
  calls.foldl applyCall s

/-- The ten cell counters, as selectors for uniform statements. -/
inductive CounterId where
  | readCell | writeCell | readPad | writePad
  | enabledReadCell | enabledWriteCell | enabledReadPad | enabledWritePad
  | readDrop | writeDrop
deriving DecidableEq, Repr

/-- Project the counter named by a `CounterId` out of the statistics. -/
def counter (s : padding_counts_t) : CounterId → Nat
  | .readCell => s.read_cell_count
  | .writeCell => s.write_cell_count
  | .readPad => s.read_pad_cell_count
  | .writePad => s.write_pad_cell_count
  | .enabledReadCell => s.enabled_read_cell_count
  | .enabledWriteCell => s.enabled_write_cell_count
  | .enabledReadPad => s.enabled_read_pad_cell_count
  | .enabledWritePad => s.enabled_write_pad_cell_count
  | .readDrop => s.read_drop_cell_count
  | .writeDrop => s.write_drop_cell_count

/-- The counter that a given accounting call increments (each call of
rephist.c touches exactly one `padding_current` field). -/
def target : PadCall → CounterId
  | .write .PADDING_TYPE_DROP => .writeDrop
  | .write .PADDING_TYPE_CELL => .writePad
  | .write .PADDING_TYPE_TOTAL => .writeCell
  | .write .PADDING_TYPE_ENABLED_TOTAL => .enabledWriteCell
  | .write .PADDING_TYPE_ENABLED_CELL => .enabledWritePad
  | .read .PADDING_TYPE_DROP => .readDrop
  | .read .PADDING_TYPE_CELL => .readPad
  | .read .PADDING_TYPE_TOTAL => .readCell
  | .read .PADDING_TYPE_ENABLED_TOTAL => .enabledReadCell
  | .read .PADDING_TYPE_ENABLED_CELL => .enabledReadPad

/-- `MIN_CELL_COUNTS_TO_PUBLISH` from rephist.c. -/
def MIN_CELL_COUNTS_TO_PUBLISH : Nat := 1

/-- `ROUND_CELL_COUNTS_TO` from rephist.c. -/
def ROUND_CELL_COUNTS_TO : Nat := 10000

/-- Modelled from the spec: `round_uint64_to_next_multiple_of` (declared
in `lib/math/`, not among the sources) rounds its first argument up to
the least multiple of the second that is at or above it. -/
def round_uint64_to_next_multiple_of (number divisor : Nat) : Nat :=
  ((number + divisor - 1) / divisor) * divisor

/-- `rep_hist_prep_published_padding_counts` from rephist.c: copy the
current statistics; zero everything if either total cell count is below
the publication minimum; otherwise stamp the publication time and round
every cell counter up to the next multiple of `ROUND_CELL_COUNTS_TO`. -/
def rep_hist_prep_published_padding_counts (current : padding_counts_t)
    (now : Nat) : padding_counts_t :=
  let pub := current
  if pub.read_cell_count < MIN_CELL_COUNTS_TO_PUBLISH ∨
      pub.write_cell_count < MIN_CELL_COUNTS_TO_PUBLISH then
    zeroed_padding_counts
  else
    { pub with
      first_published_at := now
      read_pad_cell_count :=
        round_uint64_to_next_multiple_of pub.read_pad_cell_count ROUND_CELL_COUNTS_TO
      write_pad_cell_count :=
        round_uint64_to_next_multiple_of pub.write_pad_cell_count ROUND_CELL_COUNTS_TO
      read_drop_cell_count :=
        round_uint64_to_next_multiple_of pub.read_drop_cell_count ROUND_CELL_COUNTS_TO
      write_drop_cell_count :=
        round_uint64_to_next_multiple_of pub.write_drop_cell_count ROUND_CELL_COUNTS_TO
      write_cell_count :=
        round_uint64_to_next_multiple_of pub.write_cell_count ROUND_CELL_COUNTS_TO
      read_cell_count :=
        round_uint64_to_next_multiple_of pub.read_cell_count ROUND_CELL_COUNTS_TO
      enabled_read_cell_count :=
        round_uint64_to_next_multiple_of pub.enabled_read_cell_count ROUND_CELL_COUNTS_TO
      enabled_read_pad_cell_count :=
        round_uint64_to_next_multiple_of pub.enabled_read_pad_cell_count ROUND_CELL_COUNTS_TO
      enabled_write_cell_count :=
        round_uint64_to_next_multiple_of pub.enabled_write_cell_count ROUND_CELL_COUNTS_TO
      enabled_write_pad_cell_count :=
        round_uint64_to_next_multiple_of pub.enabled_write_pad_cell_count ROUND_CELL_COUNTS_TO }

/-- `rep_hist_get_padding_count_lines` from rephist.c: `NULL` unless both
published totals are nonzero; otherwise the list of counter values that
are formatted into the `padding-counts` line, in print order. -/
def rep_hist_get_padding_count_lines (pub : padding_counts_t) : Option (List Nat) :=
  if pub.read_cell_count = 0 ∨ pub.write_cell_count = 0 then
    none
  else
    some [pub.first_published_at, ROUND_CELL_COUNTS_TO,
      pub.write_drop_cell_count, pub.write_pad_cell_count, pub.write_cell_count,
      pub.read_drop_cell_count, pub.read_pad_cell_count, pub.read_cell_count,
      pub.enabled_read_pad_cell_count, pub.enabled_read_cell_count,
      pub.enabled_write_pad_cell_count, pub.enabled_write_cell_count,
      pub.maximum_chanpad_timers]

end Rephist

namespace Governor

/-- Modelled from the spec: the overhead governor's counter pair
(`circpad_machine_reached_padding_limit` lives in
`src/core/or/circuitpadding.c`, which is not among the sources).
`padding` counts padding cells sent, `total` counts all cells sent
(padding included). -/
structure GovState where
  padding : Nat
  total : Nat
deriving DecidableEq, Repr

/-- Modelled from the spec: the governor's suppression test on a
scheduled padding send, in exact integer arithmetic: suppress exactly
when `padding ≥ allowed_burst` and `100·padding > max_percent·total`. -/
def suppress (allowed_burst max_percent : Nat) (s : GovState) : Bool :=
  decide (allowed_burst ≤ s.padding) && decide (max_percent * s.total < 100 * s.padding)

/-- One traffic step seen by the governor: a scheduled padding send
(subject to suppression) or a non-padding send. -/
inductive TrafficOp where
  | padAttempt
  | nonpad
deriving DecidableEq, Repr

/-- Modelled from the spec: counter evolution.  A permitted padding send
increments both counters; a suppressed one emits no cell and changes
nothing; a non-padding send increments only the total. -/
def govStep (allowed_burst max_percent : Nat) (s : GovState) :
    TrafficOp → GovState
  | .padAttempt =>
      if suppress allowed_burst max_percent s then s
      else { padding := s.padding + 1, total := s.total + 1 }
  | .nonpad => { s with total := s.total + 1 }

/-- A run of the governor from zeroed counters. -/
def govRun (allowed_burst max_percent : Nat) (ops : List TrafficOp) : GovState :=
  ops.foldl (govStep allowed_burst max_percent) ⟨0, 0⟩

end Governor

namespace Slot

/-- Modelled from the spec: a machine specification reference held by a
circuit slot (`circuit_t.padding_machine`); identified by its machine
number. -/
structure MachineSpec where
  machine_num : Nat
deriving DecidableEq, Repr

/-- Modelled from the spec: the mutable runtime of a slot
(`circuit_t.padding_info`); it records which spec it was built from. -/
structure Runtime where
  machine_num : Nat
deriving DecidableEq, Repr

/-- Modelled from the spec: a circuit slot, pairing an immutable spec
reference with an optional runtime. -/
structure SlotState where
  spec : Option MachineSpec
  runtime : Option Runtime
deriving DecidableEq, Repr

/-- The empty slot. -/
def emptySlot : SlotState := { spec := none, runtime := none }

/-- Modelled from the spec: slot lifecycle events.  `install` starts a
machine (origin side, sends `NEGOTIATE(START)`); `conditionsFail`
covers condition failure on an active machine (origin sends `STOP` and
frees the runtime at once); `endState` is a transition into the
terminal state; `negotiatedStop` is the matching `NEGOTIATED` response
arriving; `timeoutExpires` is the shutdown grace timeout. -/
inductive SlotEvent where
  | install : MachineSpec → SlotEvent
  | conditionsFail
  | endState
  | negotiatedStop
  | timeoutExpires
deriving DecidableEq, Repr

/-- Modelled from the spec (§4.H slot state machine and §2.2.3 of the
padding document): `install` populates both fields; condition failure or
reaching the end state destroys the runtime immediately but retains the
spec reference; the spec reference is cleared only by the matching
`NEGOTIATED`(`STOP`) response or by the grace timeout, and only once the
runtime is already gone. -/
def slotStep (s : SlotState) : SlotEvent → SlotState
  | .install m => { spec := some m, runtime := some { machine_num := m.machine_num } }
  | .conditionsFail =>
      match s.runtime with
      | some _ => { s with runtime := none }
      | none => s
  | .endState =>
      match s.runtime with
      | some _ => { s with runtime := none }
      | none => s
  | .negotiatedStop =>
      match s.runtime with
      | none => { spec := none, runtime := none }
      | some _ => s
  | .timeoutExpires =>
      match s.runtime with
      | none => { spec := none, runtime := none }
      | some _ => s

/-- Run the slot from empty over a sequence of lifecycle events. -/
def slotRun (evs : List SlotEvent) : SlotState :=
  evs.foldl slotStep emptySlot

/-- Modelled from the spec: a padding cell received on a slot whose spec
reference is null is a protocol violation. -/
def paddingCellIsViolation (s : SlotState) : Bool :=
  s.spec.isNone

end Slot

namespace Registry

/-- Modelled from the spec (§4.F): a machine's application conditions. -/
structure Conditions where
  min_hops : Nat
  state_mask : Nat
  purpose_mask : Nat
  requires_vanguards : Bool
deriving DecidableEq, Repr

/-- Modelled from the spec: the circuit attributes the conditions are
evaluated against. -/
structure CircuitView where
  hops : Nat
  state_bits : Nat
  purpose_bits : Nat
  has_vanguards : Bool
deriving DecidableEq, Repr

/-- Modelled from the spec: a registered machine specification. -/
structure Machine where
  machine_num : Nat
  conditions : Conditions
deriving DecidableEq, Repr

/-- Modelled from the spec (§4.F): boolean AND over the specified
predicates; a mask constrains the circuit only when some bit is set. -/
def evaluate (m : Machine) (c : CircuitView) : Bool :=
  decide (m.conditions.min_hops ≤ c.hops) &&
  (decide (m.conditions.state_mask = 0) ||
    decide (m.conditions.state_mask &&& c.state_bits ≠ 0)) &&
  (decide (m.conditions.purpose_mask = 0) ||
    decide (m.conditions.purpose_mask &&& c.purpose_bits ≠ 0)) &&
  (!m.conditions.requires_vanguards || c.has_vanguards)

/-- Modelled from the spec (§4.B): registration appends to the list. -/
def registerMachine (reg : List Machine) (m : Machine) : List Machine :=
  reg ++ [m]

/-- Modelled from the spec (§4.B, §4.G): to fill an empty slot the
controller walks the registry in reverse registration order and installs
the first machine whose conditions hold. -/
def pickMachine (reg : List Machine) (c : CircuitView) : Option Machine :=
  reg.reverse.find? (fun m => evaluate m c)

end Registry

namespace Negotiation

/-- Modelled from the spec (§6.1): the `NEGOTIATE` payload fields.  All
single-byte fields plus the 32-bit `machine_ctr`. -/
structure NegotiatePayload where
  version : Nat
  command : Nat
  machine_type : Nat
  machine_number : Nat
  machine_ctr : Nat
deriving DecidableEq, Repr

/-- Modelled from the spec (§6.1): the `NEGOTIATED` payload fields:
those of `NEGOTIATE` plus a response code. -/
structure NegotiatedPayload where
  version : Nat
  command : Nat
  machine_type : Nat
  machine_number : Nat
  machine_ctr : Nat
  response_code : Nat
deriving DecidableEq, Repr

/-- The four little-endian bytes of a 32-bit counter. -/
def ctrBytesLE (ctr : Nat) : List Nat :=
  [ctr % 256, ctr / 256 % 256, ctr / 65536 % 256, ctr / 16777216 % 256]

/-- Reassemble a 32-bit counter from its four little-endian bytes. -/
def ctrOfBytesLE (b0 b1 b2 b3 : Nat) : Nat :=
  b0 + 256 * (b1 + 256 * (b2 + 256 * b3))

/-- Modelled from the spec: encode a `NEGOTIATE` payload into its 9
bytes (single-byte fields are truncated to their low byte as a `uint8_t`
store would); offset 8 (the `NEGOTIATED`-only response code) is zero
padding. -/
def encodeNegotiate (p : NegotiatePayload) : List Nat :=
  [p.version % 256, p.command % 256, p.machine_type % 256,
    p.machine_number % 256] ++ ctrBytesLE p.machine_ctr ++ [0]

/-- Modelled from the spec: encode a `NEGOTIATED` payload into its 9
bytes. -/
def encodeNegotiated (p : NegotiatedPayload) : List Nat :=
  [p.version % 256, p.command % 256, p.machine_type % 256,
    p.machine_number % 256] ++ ctrBytesLE p.machine_ctr ++ [p.response_code % 256]

/-- Zero-pad an encoded payload to the transport cell size. -/
def padToCell (bytes : List Nat) (cellSize : Nat) : List Nat :=
  bytes ++ List.replicate (cellSize - bytes.length) 0

/-- Modelled from the spec: decode a `NEGOTIATE` payload from the first
9 bytes of a cell body; `none` if the body is shorter. -/
def decodeNegotiate (bytes : List Nat) : Option NegotiatePayload :=
  match bytes with
  | v :: cmd :: mt :: mn :: c0 :: c1 :: c2 :: c3 :: _zpad :: _rest =>
      some { version := v, command := cmd, machine_type := mt,
             machine_number := mn, machine_ctr := ctrOfBytesLE c0 c1 c2 c3 }
  | _ => none

/-- Modelled from the spec: decode a `NEGOTIATED` payload from the first
9 bytes of a cell body; `none` if the body is shorter. -/
def decodeNegotiated (bytes : List Nat) : Option NegotiatedPayload :=
  match bytes with
  | v :: cmd :: mt :: mn :: c0 :: c1 :: c2 :: c3 :: rc :: _rest =>
      some { version := v, command := cmd, machine_type := mt,
             machine_number := mn, machine_ctr := ctrOfBytesLE c0 c1 c2 c3,
             response_code := rc }
  | _ => none

end Negotiation

namespace Histo

/-- Modelled from the spec (§3 Data model, §4.A): a padding histogram.
`tokens` has N+1 entries; entries 0..N−1 are the token counts of the
delay bins and entry N is the infinity bin.  `edges` lists the N+1 bin
edges: bin `i` covers the half-open interval from `edges i` to
`edges (i+1)`. -/
structure Histogram where
  tokens : List Nat
  edges : List Nat
deriving DecidableEq, Repr

/-- The number N of non-infinity bins. -/
def Histogram.numBins (h : Histogram) : Nat :=
  h.tokens.length - 1

/-- True when every non-infinity bin holds zero tokens. -/
def Histogram.nonInfEmpty (h : Histogram) : Bool :=
  h.tokens.dropLast.all (fun t => t = 0)

/-- Modelled from the spec: weighted bin selection.  `r` is a uniformly
random number below the total token count; the selected bin is the one
whose cumulative token range contains `r`. -/
def chooseBin : List Nat → Nat → Nat
  | [], _ => 0
  | t :: rest, r => if r < t then 0 else 1 + chooseBin rest (r - t)

/-- The outcome of sampling a delay from a histogram state. -/
inductive SampleResult where
  | delay : Nat → SampleResult
  | infinite
  | binsEmpty
deriving DecidableEq, Repr

/-- Modelled from the spec (§4.A histogram sampling, with the boundary
rule of §8 deciding the empty-histogram case): two-step sampling with
injected randomness `r1` (bin selection) and `r2` (delay within the
bin).  If the histogram holds no tokens at all, selection is impossible:
raise `BINS_EMPTY` and arm no timer.  Otherwise select a bin weighted by
the token counts; the infinity bin yields the never-schedule sentinel,
any other bin yields a uniform delay in its half-open interval. -/
def sampleHist (h : Histogram) (r1 r2 : Nat) : SampleResult :=
  if h.tokens.sum = 0 then
    .binsEmpty
  else if chooseBin h.tokens (r1 % h.tokens.sum) < h.numBins then
    .delay (h.edges.getD (chooseBin h.tokens (r1 % h.tokens.sum)) 0 +
      r2 % (h.edges.getD (chooseBin h.tokens (r1 % h.tokens.sum) + 1) 0 -
        h.edges.getD (chooseBin h.tokens (r1 % h.tokens.sum)) 0))
  else
    .infinite

end Histo

/-- The operation sequence exhibiting the mqueue.c push index slip: one
push/pop pair advances `first` to 1; sixteen pushes then fill the queue,
and the sixteenth is stored at index `first + len = capacity = 16`, one
cell past the array (the intended index, per the `#if 0` block in
`mqueue_push`, is 0); sixteen pops then drain the queue. -/
def mqueueBugOps : List (QOp Nat) :=
  [.push 100, .pop] ++ (List.range 16).map (fun i => .push (i + 1)) ++
    List.replicate 16 .pop

/-- The same sequence without its final pop: it leaves the first/len
queue claiming one stored item (`len = 1`) whose cell holds `NULL`. -/
def mqueueBugPrefix : List (QOp Nat) :=
  [.push 100, .pop] ++ (List.range 16).map (fun i => .push (i + 1)) ++
    List.replicate 15 .pop

set_option maxRecDepth 100000 in
/-- C1: the spec claims `mqueue_push`/`mqueue_pop` of mqueue.c deliver
items first-in-first-out across capacity growth.  The code does not: on
`mqueueBugOps` the FIFO result sequence ends with item 16, but mqueue.c
stores that item one cell past the ring buffer (its push-index branch
reads `capacity - first < len` where the wrap needs `≤`), so its last
pop returns `NULL` and item 16 is lost.  This contradicts the intended
index computation kept in `mqueue_push`'s `#if 0` block and the correct
sibling implementation in mapstore.c, so the claim is right and the code
is wrong. -/
theorem C1_mqueue_fifo_code_bug :
    SpecQueue.popResults mqueueBugOps =
      [some 100, some 1, some 2, some 3, some 4, some 5, some 6, some 7,
       some 8, some 9, some 10, some 11, some 12, some 13, some 14,
       some 15, some 16] ∧
    MQ.popResults mqueueBugOps =
      [some 100, some 1, some 2, some 3, some 4, some 5, some 6, some 7,
       some 8, some 9, some 10, some 11, some 12, some 13, some 14,
       some 15, none] ∧
    MQ.popResults mqueueBugOps ≠ SpecQueue.popResults mqueueBugOps := by
  decide

set_option maxRecDepth 100000 in
/-- C2: the claimed observational equivalence of the two mqueue
implementations fails on `mqueueBugOps`: the head/tail variant of
mapstore.c returns every pushed item in order (matching the list-queue
specification), while the first/len variant of mqueue.c loses item 16
to its push-index slip and returns `NULL` instead. -/
theorem C2_mqueue_variants_code_bug :
    MS.popResults mqueueBugOps = SpecQueue.popResults mqueueBugOps ∧
    MQ.popResults mqueueBugOps ≠ MS.popResults mqueueBugOps := by
  decide

set_option maxRecDepth 100000 in
/-- C9: popping an empty mqueue.c queue does return `NULL` and leave the
queue untouched, but the claim that `NULL` is returned *only* in the
empty case (when `NULL` is never pushed) fails: after `mqueueBugPrefix`
the first/len queue reports `mqueue_len = 1`, yet `mqueue_pop` returns
`NULL`, because the sixteenth pushed item was written one cell past the
ring buffer and the front cell still holds the `NULL` left by an earlier
pop. -/
theorem C9_pop_null_on_nonempty_code_bug :
    MQ.mqueue_pop (MQ.mqueue_init Nat) = (none, MQ.mqueue_init Nat) ∧
    MQ.mqueue_len (MQ.runState mqueueBugPrefix) = 1 ∧
    (MQ.mqueue_pop (MQ.runState mqueueBugPrefix)).1 = none := by
  decide

/-- Each accounting call of rephist.c rewrites exactly its target
counter with the `uint64` increment of its old value and leaves every
other counter unchanged. -/
theorem counter_applyCall (s : Rephist.padding_counts_t) (c : Rephist.PadCall)
    (id : Rephist.CounterId) :
    Rephist.counter (Rephist.applyCall s c) id =
      if Rephist.target c = id then Rephist.incr64 (Rephist.counter s id)
      else Rephist.counter s id := by
  cases c with
  | write t => cases t <;> cases id <;> rfl
  | read t => cases t <;> cases id <;> rfl

/-- A counter after a sequence of accounting calls equals its start value
plus the number of calls targeting it, reduced modulo `2 ^ 64`. -/
theorem counter_applyCalls (calls : List Rephist.PadCall)
    (s : Rephist.padding_counts_t) (id : Rephist.CounterId)
    (h : Rephist.counter s id < U64) :
    Rephist.counter (Rephist.applyCalls s calls) id =
      (Rephist.counter s id +
        calls.countP (fun c => decide (Rephist.target c = id))) % U64 := by
  induction calls generalizing s with
  | nil =>
      simp [Rephist.applyCalls, Nat.mod_eq_of_lt h]
  | cons c rest ih =>
      have hstep := counter_applyCall s c id
      have hU : 0 < U64 := by norm_num [U64]
      by_cases htgt : Rephist.target c = id
      · have hlt : Rephist.incr64 (Rephist.counter s id) < U64 :=
          Nat.mod_lt _ hU
        have := ih (Rephist.applyCall s c) (by rw [hstep, if_pos htgt]; exact hlt)
        calc Rephist.counter (Rephist.applyCalls s (c :: rest)) id
            = Rephist.counter (Rephist.applyCalls (Rephist.applyCall s c) rest) id := rfl
          _ = (Rephist.counter (Rephist.applyCall s c) id +
                rest.countP (fun x => decide (Rephist.target x = id))) % U64 := this
          _ = ((Rephist.counter s id + 1) % U64 +
                rest.countP (fun x => decide (Rephist.target x = id))) % U64 := by
                rw [hstep, if_pos htgt]; rfl
          _ = (Rephist.counter s id +
                (c :: rest).countP (fun x => decide (Rephist.target x = id))) % U64 := by
                rw [Nat.mod_add_mod, List.countP_cons]
                simp [htgt]
                ring_nf
      · have := ih (Rephist.applyCall s c) (by rw [hstep, if_neg htgt]; exact h)
        calc Rephist.counter (Rephist.applyCalls s (c :: rest)) id
            = Rephist.counter (Rephist.applyCalls (Rephist.applyCall s c) rest) id := rfl
          _ = (Rephist.counter (Rephist.applyCall s c) id +
                rest.countP (fun x => decide (Rephist.target x = id))) % U64 := this
          _ = (Rephist.counter s id +
                (c :: rest).countP (fun x => decide (Rephist.target x = id))) % U64 := by
                rw [hstep, if_neg htgt, List.countP_cons]
                simp [htgt]

/-- Every counter of the zeroed statistics is zero. -/
theorem counter_zeroed (id : Rephist.CounterId) :
    Rephist.counter Rephist.zeroed_padding_counts id = 0 := by
  cases id <;> rfl

/-- A run of identical accounting calls targets its counter once per
call. -/
theorem countP_target_replicate (n : Nat) (c : Rephist.PadCall)
    (id : Rephist.CounterId) (h : Rephist.target c = id) :
    (List.replicate n c).countP (fun x => decide (Rephist.target x = id)) = n := by
  induction n with
  | zero => rfl
  | succ n ih => simp [List.replicate_succ, List.countP_cons, ih, h]

/-- C4 (counterexample): the claim that the `padding_current` counters
never decrease across any sequence of `rep_hist_padding_count_write` and
`rep_hist_padding_count_read` calls fails on the code, because the
counters are `uint64_t`: after `2 ^ 64 − 1` calls of
`rep_hist_padding_count_write(PADDING_TYPE_CELL)` the
`write_pad_cell_count` counter holds `2 ^ 64 − 1`, and the next call of
the same run wraps it to `0`. -/
theorem C4_counterexample_wraparound :
    Rephist.counter (Rephist.applyCalls Rephist.zeroed_padding_counts
        (List.replicate (U64 - 1) (.write .PADDING_TYPE_CELL))) .writePad = U64 - 1 ∧
    Rephist.counter (Rephist.applyCalls Rephist.zeroed_padding_counts
        (List.replicate U64 (.write .PADDING_TYPE_CELL))) .writePad = 0 ∧
    List.replicate U64 (Rephist.PadCall.write .PADDING_TYPE_CELL) =
      List.replicate (U64 - 1) (Rephist.PadCall.write .PADDING_TYPE_CELL) ++
        [.write .PADDING_TYPE_CELL] ∧
    (0 : Nat) < U64 - 1 := by
  have h0 : Rephist.counter Rephist.zeroed_padding_counts .writePad < U64 := by
    rw [counter_zeroed]; norm_num [U64]
  have htgt : Rephist.target (.write .PADDING_TYPE_CELL) = Rephist.CounterId.writePad := rfl
  refine ⟨?_, ?_, ?_, by norm_num [U64]⟩
  · rw [counter_applyCalls _ _ _ h0, counter_zeroed,
      countP_target_replicate _ _ _ htgt, Nat.zero_add]
    exact Nat.mod_eq_of_lt (by norm_num [U64])
  · rw [counter_applyCalls _ _ _ h0, counter_zeroed,
      countP_target_replicate _ _ _ htgt, Nat.zero_add, Nat.mod_self]
  · have : U64 = (U64 - 1) + 1 := by norm_num [U64]
    conv_lhs => rw [this]
    rw [List.replicate_succ']

/-- C4 (amended): every accounting call of rephist.c increments exactly
the one `padding_current` counter selected by its `padding_type_t`
argument — modulo `2 ^ 64`, its counters being `uint64_t` — and leaves
every other counter unchanged; a counter after a run from the zeroed
statistics equals the number of calls targeting it modulo `2 ^ 64`; and
along any run of fewer than `2 ^ 64` calls every counter is
non-decreasing. -/
theorem C4_padding_counters_amended :
    (∀ (s : Rephist.padding_counts_t) (c : Rephist.PadCall) (id : Rephist.CounterId),
        Rephist.counter (Rephist.applyCall s c) id =
          if Rephist.target c = id then Rephist.incr64 (Rephist.counter s id)
          else Rephist.counter s id) ∧
    (∀ (calls : List Rephist.PadCall) (id : Rephist.CounterId),
        Rephist.counter (Rephist.applyCalls Rephist.zeroed_padding_counts calls) id =
          calls.countP (fun c => decide (Rephist.target c = id)) % U64) ∧
    (∀ (pre post : List Rephist.PadCall) (id : Rephist.CounterId),
        (pre ++ post).length < U64 →
        Rephist.counter (Rephist.applyCalls Rephist.zeroed_padding_counts pre) id ≤
          Rephist.counter (Rephist.applyCalls Rephist.zeroed_padding_counts
            (pre ++ post)) id) := by
  have h0 : ∀ id, Rephist.counter Rephist.zeroed_padding_counts id < U64 := by
    intro id; rw [counter_zeroed]; norm_num [U64]
  have hchar : ∀ (calls : List Rephist.PadCall) (id : Rephist.CounterId),
      Rephist.counter (Rephist.applyCalls Rephist.zeroed_padding_counts calls) id =
        calls.countP (fun c => decide (Rephist.target c = id)) % U64 := by
    intro calls id
    rw [counter_applyCalls _ _ _ (h0 id), counter_zeroed, Nat.zero_add]
  refine ⟨fun s c id => counter_applyCall s c id, hchar, ?_⟩
  intro pre post id hlen
  rw [hchar, hchar, List.countP_append]
  have hple : pre.countP (fun c => decide (Rephist.target c = id)) ≤ pre.length :=
    List.countP_le_length _
  have hqle : post.countP (fun c => decide (Rephist.target c = id)) ≤ post.length :=
    List.countP_le_length _
  rw [List.length_append] at hlen
  rw [Nat.mod_eq_of_lt (by omega), Nat.mod_eq_of_lt (by omega)]
  omega

/-- C4 (witness): the amended theorem applied to the one-call prefix of
a two-call run. -/
theorem C4_padding_counters_amended_witness :
    Rephist.counter (Rephist.applyCalls Rephist.zeroed_padding_counts
        [.write .PADDING_TYPE_CELL]) .writePad ≤
      Rephist.counter (Rephist.applyCalls Rephist.zeroed_padding_counts
        ([.write .PADDING_TYPE_CELL] ++ [.write .PADDING_TYPE_CELL])) .writePad :=
  C4_padding_counters_amended.2.2 [.write .PADDING_TYPE_CELL]
    [.write .PADDING_TYPE_CELL] .writePad (by norm_num [U64])

/-- The spec-modelled rounding helper yields a multiple of its divisor at
or above its input. -/
theorem round_next_multiple_spec (x : Nat) :
    Rephist.ROUND_CELL_COUNTS_TO ∣
      Rephist.round_uint64_to_next_multiple_of x Rephist.ROUND_CELL_COUNTS_TO ∧
    x ≤ Rephist.round_uint64_to_next_multiple_of x Rephist.ROUND_CELL_COUNTS_TO := by
  unfold Rephist.round_uint64_to_next_multiple_of Rephist.ROUND_CELL_COUNTS_TO
  refine ⟨dvd_mul_left _ _, ?_⟩
  have h1 := Nat.div_add_mod (x + 10000 - 1) 10000
  have h2 : (x + 10000 - 1) % 10000 < 10000 := Nat.mod_lt _ (by norm_num)
  omega

/-- C10: the padding-statistics publication interface never reveals exact
counts: `rep_hist_get_padding_count_lines` returns `NULL` exactly when a
published total cell count (read or write) is zero; and after
`rep_hist_prep_published_padding_counts` either every published counter
is zeroed (either total below `MIN_CELL_COUNTS_TO_PUBLISH = 1`) or every
published cell counter is the original rounded up to the next multiple
of `ROUND_CELL_COUNTS_TO = 10000` (hence a multiple of 10000 at or above
the true count). -/
theorem C10_padding_publication (cur pub : Rephist.padding_counts_t) (now : Nat) :
    (Rephist.rep_hist_get_padding_count_lines pub = none ↔
      pub.read_cell_count = 0 ∨ pub.write_cell_count = 0) ∧
    (cur.read_cell_count = 0 ∨ cur.write_cell_count = 0 →
      Rephist.rep_hist_prep_published_padding_counts cur now =
        Rephist.zeroed_padding_counts) ∧
    (cur.read_cell_count ≠ 0 → cur.write_cell_count ≠ 0 →
      ∀ id : Rephist.CounterId,
        Rephist.counter (Rephist.rep_hist_prep_published_padding_counts cur now) id =
          Rephist.round_uint64_to_next_multiple_of (Rephist.counter cur id)
            Rephist.ROUND_CELL_COUNTS_TO ∧
        Rephist.ROUND_CELL_COUNTS_TO ∣
          Rephist.counter (Rephist.rep_hist_prep_published_padding_counts cur now) id ∧
        Rephist.counter cur id ≤
          Rephist.counter (Rephist.rep_hist_prep_published_padding_counts cur now) id) := by
  refine ⟨?_, ?_, ?_⟩
  · unfold Rephist.rep_hist_get_padding_count_lines
    split <;> simp_all
  · intro h
    unfold Rephist.rep_hist_prep_published_padding_counts
    rw [if_pos]
    unfold Rephist.MIN_CELL_COUNTS_TO_PUBLISH
    omega
  · intro hr hw id
    have hcond : ¬(cur.read_cell_count < Rephist.MIN_CELL_COUNTS_TO_PUBLISH ∨
        cur.write_cell_count < Rephist.MIN_CELL_COUNTS_TO_PUBLISH) := by
      unfold Rephist.MIN_CELL_COUNTS_TO_PUBLISH
      omega
    have heq : Rephist.counter (Rephist.rep_hist_prep_published_padding_counts cur now) id =
        Rephist.round_uint64_to_next_multiple_of (Rephist.counter cur id)
          Rephist.ROUND_CELL_COUNTS_TO := by
      cases id <;>
        simp [Rephist.counter, Rephist.rep_hist_prep_published_padding_counts, hcond]
    exact ⟨heq, heq ▸ (round_next_multiple_spec _).1, heq ▸ (round_next_multiple_spec _).2⟩

/-- C10 (witness): publication of statistics with 3 cells read and 12345
cells written publishes a write total of 20000. -/
theorem C10_padding_publication_witness :
    Rephist.counter (Rephist.rep_hist_prep_published_padding_counts
        { Rephist.zeroed_padding_counts with
            read_cell_count := 3, write_cell_count := 12345 } 77)
      .writeCell = 20000 := by
  have h := (C10_padding_publication
      { Rephist.zeroed_padding_counts with
          read_cell_count := 3, write_cell_count := 12345 }
      Rephist.zeroed_padding_counts 77).2.2 (by decide) (by decide) .writeCell
  rw [h.1]
  rfl

/-- C3 (counterexample): with allowed burst 1 and max-percent 50, the run
"padding send, non-padding send, padding attempt" reaches counters
`(padding, total) = (1, 2)` at the second padding check; the governor
permits that send (`100·1 ≤ 50·2`), producing `(2, 3)` — a state in
which `padding_cells > allowed_burst` AND `100·padding > max_percent·total`
hold simultaneously, so at the next check of this burst-exceeding run the
ratio `2/3` is above the 50% cap.  This refutes both the claim's
"never permits a send that would make both hold" conjunct (read on the
post-send state) and its final every-check ratio bound (spec property
P5). -/
theorem C3_counterexample_ratio_overshoot :
    Governor.suppress 1 50 { padding := 1, total := 2 } = false ∧
    Governor.govRun 1 50 [.padAttempt, .nonpad, .padAttempt] =
      { padding := 2, total := 3 } ∧
    1 < (Governor.govRun 1 50 [.padAttempt, .nonpad, .padAttempt]).padding ∧
    50 * (Governor.govRun 1 50 [.padAttempt, .nonpad, .padAttempt]).total <
      100 * (Governor.govRun 1 50 [.padAttempt, .nonpad, .padAttempt]).padding := by
  decide

/-- C3 (amended): the governor suppresses a scheduled padding send
exactly when `padding ≥ allowed_burst` and `100·padding >
max_percent·total` in exact integer arithmetic; below the burst
allowance the percentage cap is ignored and the send is permitted; the
governor never permits a send at a check where `padding ≥ allowed_burst`
and `100·padding > max_percent·total` already hold — so in any run, at
every check at which a send past the burst allowance is permitted,
`100·padding_sent ≤ max_percent·total_sent`.  (The ratio can exceed the
cap by the one cell just permitted; padding then stays suppressed until
non-padding traffic restores the bound.) -/
theorem C3_governor_amended (b m : Nat) (s : Governor.GovState)
    (ops : List Governor.TrafficOp) :
    (Governor.suppress b m s = true ↔
      b ≤ s.padding ∧ m * s.total < 100 * s.padding) ∧
    (s.padding < b → Governor.suppress b m s = false) ∧
    (Governor.suppress b m s = false → b ≤ s.padding →
      100 * s.padding ≤ m * s.total) ∧
    (Governor.suppress b m (Governor.govRun b m ops) = false →
      b ≤ (Governor.govRun b m ops).padding →
      100 * (Governor.govRun b m ops).padding ≤
        m * (Governor.govRun b m ops).total) := by
  have hiff : ∀ t : Governor.GovState,
      Governor.suppress b m t = true ↔
        b ≤ t.padding ∧ m * t.total < 100 * t.padding := by
    intro t
    unfold Governor.suppress
    simp
  refine ⟨hiff s, ?_, ?_, ?_⟩
  · intro hlt
    rcases h : Governor.suppress b m s with _ | _
    · rfl
    · exact absurd ((hiff s).mp h).1 (by omega)
  · intro hperm hburst
    rcases Nat.lt_or_ge (m * s.total) (100 * s.padding) with hgt | hle
    · exact absurd ((hiff s).mpr ⟨hburst, hgt⟩) (by simp [hperm])
    · omega
  · intro hperm hburst
    rcases Nat.lt_or_ge (m * (Governor.govRun b m ops).total)
        (100 * (Governor.govRun b m ops).padding) with hgt | hle
    · exact absurd ((hiff _).mpr ⟨hburst, hgt⟩) (by simp [hperm])
    · omega

/-- C3 (witness): the amended theorem at burst 2, cap 10%, zero counters
and the empty run: a send below the burst allowance is permitted. -/
theorem C3_governor_amended_witness :
    Governor.suppress 2 10 { padding := 0, total := 0 } = false :=
  (C3_governor_amended 2 10 { padding := 0, total := 0 } []).2.1 (by decide)

/-- One slot lifecycle step preserves "a runtime exists only while the
slot's spec reference is set". -/
theorem slotStep_preserves_inv (s : Slot.SlotState) (e : Slot.SlotEvent)
    (h : s.runtime.isSome → s.spec.isSome) :
    (Slot.slotStep s e).runtime.isSome → (Slot.slotStep s e).spec.isSome := by
  cases e with
  | install m => intro _; simp [Slot.slotStep]
  | conditionsFail => cases hr : s.runtime <;> simp_all [Slot.slotStep]
  | endState => cases hr : s.runtime <;> simp_all [Slot.slotStep]
  | negotiatedStop => cases hr : s.runtime <;> simp_all [Slot.slotStep]
  | timeoutExpires => cases hr : s.runtime <;> simp_all [Slot.slotStep]

/-- The invariant holds in every state reachable from the empty slot. -/
theorem slotRun_inv (evs : List Slot.SlotEvent) :
    (Slot.slotRun evs).runtime.isSome → (Slot.slotRun evs).spec.isSome := by
  suffices h : ∀ (l : List Slot.SlotEvent) (s : Slot.SlotState),
      (s.runtime.isSome → s.spec.isSome) →
      ((l.foldl Slot.slotStep s).runtime.isSome →
        (l.foldl Slot.slotStep s).spec.isSome) by
    exact h evs Slot.emptySlot (by simp [Slot.emptySlot])
  intro l
  induction l with
  | nil => intro s h; exact h
  | cons e rest ih => intro s h; exact ih _ (slotStep_preserves_inv s e h)

/-- C5: in every state reachable from the empty slot by lifecycle
events, a runtime exists only while the slot's spec reference is set;
condition failure on an active machine destroys the runtime immediately
while retaining the spec reference; only the matching `NEGOTIATED`
response or the grace timeout then clears the spec reference; and a
padding cell received on a slot whose spec reference is null is exactly
a protocol violation. -/
theorem C5_slot_shutdown_invariant (evs : List Slot.SlotEvent)
    (m : Slot.MachineSpec) (r : Slot.Runtime) (s : Slot.SlotState) :
    ((Slot.slotRun evs).runtime.isSome → (Slot.slotRun evs).spec.isSome) ∧
    Slot.slotStep { spec := some m, runtime := some r } .conditionsFail =
      { spec := some m, runtime := none } ∧
    Slot.slotStep { spec := some m, runtime := none } .negotiatedStop =
      Slot.emptySlot ∧
    Slot.slotStep { spec := some m, runtime := none } .timeoutExpires =
      Slot.emptySlot ∧
    (Slot.paddingCellIsViolation s = true ↔ s.spec = none) := by
  refine ⟨slotRun_inv evs, rfl, rfl, rfl, ?_⟩
  simp [Slot.paddingCellIsViolation, Option.isNone_iff_eq_none]

/-- C5 (witness): after installing machine 7 on an empty slot, the
runtime is present and the theorem yields the spec reference. -/
theorem C5_slot_shutdown_invariant_witness :
    (Slot.slotRun [.install { machine_num := 7 }]).spec.isSome :=
  (C5_slot_shutdown_invariant [.install { machine_num := 7 }]
    { machine_num := 7 } { machine_num := 7 } Slot.emptySlot).1 (by decide)

/-- C6: when the activation controller fills an empty slot it walks the
registry in reverse registration order and installs the first match, so
the machine installed is the one at the greatest registration index
whose conditions hold — in particular, whenever the conditions of two
registered machines both hold for the circuit, the later-registered
machine wins. -/
theorem C6_registry_reverse_precedence :
    ∀ (reg : List Registry.Machine) (c : Registry.CircuitView)
      (j : Nat) (hj : j < reg.length),
      Registry.evaluate (reg.get ⟨j, hj⟩) c = true →
      (∀ (k : Nat) (hk : k < reg.length), j < k →
        Registry.evaluate (reg.get ⟨k, hk⟩) c = false) →
      Registry.pickMachine reg c = some (reg.get ⟨j, hj⟩) := by
  intro reg
  induction reg using List.reverseRecOn with
  | nil =>
      intro c j hj
      simp at hj
  | append_singleton l a ih =>
      intro c j hj hmatch hlater
      unfold Registry.pickMachine
      rw [List.reverse_append, List.reverse_singleton, List.singleton_append]
      by_cases hja : j = l.length
      · subst hja
        have hga : (l ++ [a]).get ⟨l.length, hj⟩ = a := by
          simp
        rw [hga] at hmatch ⊢
        exact List.find?_cons_of_pos _
          (show (fun m => Registry.evaluate m c) a = true from hmatch)
      · have hjl : j < l.length := by
          rw [List.length_append] at hj
          simp at hj
          omega
        have hga : (l ++ [a]).get ⟨j, hj⟩ = l.get ⟨j, hjl⟩ :=
          List.get_append j hjl
        have haf : Registry.evaluate a c = false := by
          have hlen : l.length < (l ++ [a]).length := by simp
          have h2 := hlater l.length hlen (by omega)
          have hga2 : (l ++ [a]).get ⟨l.length, hlen⟩ = a := by simp
          rw [hga2] at h2
          exact h2
        rw [hga] at hmatch
        have hstep : List.find? (fun m => Registry.evaluate m c) (a :: l.reverse) =
            List.find? (fun m => Registry.evaluate m c) l.reverse :=
          List.find?_cons_of_neg _ (by simp [haf])
        rw [hga, hstep]
        have hres := ih c j hjl hmatch (fun k hk hjk => by
          have hk2 : k < (l ++ [a]).length := by simp; omega
          have h3 := hlater k hk2 hjk
          have hgk : (l ++ [a]).get ⟨k, hk2⟩ = l.get ⟨k, hk⟩ :=
            List.get_append k hk
          rw [hgk] at h3
          exact h3)
        unfold Registry.pickMachine at hres
        exact hres

/-- C6 (witness): two registered machines whose conditions both hold for
a three-hop circuit; the later-registered machine (number 2) is the one
picked. -/
theorem C6_registry_reverse_precedence_witness :
    Registry.pickMachine
      [{ machine_num := 1, conditions := ⟨0, 0, 0, false⟩ },
       { machine_num := 2, conditions := ⟨0, 0, 0, false⟩ }]
      { hops := 3, state_bits := 0, purpose_bits := 0, has_vanguards := false } =
      some { machine_num := 2, conditions := ⟨0, 0, 0, false⟩ } :=
  C6_registry_reverse_precedence
    [{ machine_num := 1, conditions := ⟨0, 0, 0, false⟩ },
     { machine_num := 2, conditions := ⟨0, 0, 0, false⟩ }]
    { hops := 3, state_bits := 0, purpose_bits := 0, has_vanguards := false }
    1 (by decide) (by decide)
    (fun k hk hgt => absurd hk (by simp; omega))

/-- Reassembling a 32-bit counter from its four little-endian bytes
recovers it. -/
theorem ctrOfBytesLE_roundtrip (c : Nat) (h : c < 2 ^ 32) :
    Negotiation.ctrOfBytesLE (c % 256) (c / 256 % 256) (c / 65536 % 256)
      (c / 16777216 % 256) = c := by
  unfold Negotiation.ctrOfBytesLE
  have h32 : c < 4294967296 := by simpa using h
  omega

/-- C7: encoding a `NEGOTIATE` or `NEGOTIATED` payload and decoding the
result — even after zero-padding to any transport cell size of at least
9 bytes — yields the original field values, the single-byte fields being
bytes and `machine_ctr` a 32-bit value carried little-endian; the
encoded payload proper is 9 bytes. -/
theorem C7_negotiation_roundtrip (p : Negotiation.NegotiatePayload)
    (q : Negotiation.NegotiatedPayload) (k : Nat)
    (hv : p.version < 256) (hc : p.command < 256) (ht : p.machine_type < 256)
    (hn : p.machine_number < 256) (hctr : p.machine_ctr < 2 ^ 32)
    (hv2 : q.version < 256) (hc2 : q.command < 256) (ht2 : q.machine_type < 256)
    (hn2 : q.machine_number < 256) (hctr2 : q.machine_ctr < 2 ^ 32)
    (hr2 : q.response_code < 256) :
    (Negotiation.encodeNegotiate p).length = 9 ∧
    (Negotiation.encodeNegotiated q).length = 9 ∧
    Negotiation.decodeNegotiate
      (Negotiation.padToCell (Negotiation.encodeNegotiate p) (9 + k)) = some p ∧
    Negotiation.decodeNegotiated
      (Negotiation.padToCell (Negotiation.encodeNegotiated q) (9 + k)) = some q := by
  refine ⟨rfl, rfl, ?_, ?_⟩
  · simp [Negotiation.padToCell, Negotiation.encodeNegotiate,
      Negotiation.ctrBytesLE, Negotiation.decodeNegotiate,
      Nat.mod_eq_of_lt hv, Nat.mod_eq_of_lt hc, Nat.mod_eq_of_lt ht,
      Nat.mod_eq_of_lt hn, ctrOfBytesLE_roundtrip p.machine_ctr hctr]
  · simp [Negotiation.padToCell, Negotiation.encodeNegotiated,
      Negotiation.ctrBytesLE, Negotiation.decodeNegotiated,
      Nat.mod_eq_of_lt hv2, Nat.mod_eq_of_lt hc2, Nat.mod_eq_of_lt ht2,
      Nat.mod_eq_of_lt hn2, Nat.mod_eq_of_lt hr2,
      ctrOfBytesLE_roundtrip q.machine_ctr hctr2]

/-- C7 (witness): a concrete `NEGOTIATE(START)` for machine 2 with
counter `0x01020304` and a concrete `NEGOTIATED(SUCCESS)` round-trip
through a 509-byte cell body. -/
theorem C7_negotiation_roundtrip_witness :
    Negotiation.decodeNegotiate
      (Negotiation.padToCell (Negotiation.encodeNegotiate
        { version := 0, command := 1, machine_type := 1, machine_number := 2,
          machine_ctr := 16909060 }) (9 + 500)) =
      some { version := 0, command := 1, machine_type := 1, machine_number := 2,
             machine_ctr := 16909060 } :=
  (C7_negotiation_roundtrip
    { version := 0, command := 1, machine_type := 1, machine_number := 2,
      machine_ctr := 16909060 }
    { version := 0, command := 1, machine_type := 1, machine_number := 2,
      machine_ctr := 16909060, response_code := 0 }
    500 (by decide) (by decide) (by decide) (by decide) (by decide)
    (by decide) (by decide) (by decide) (by decide) (by decide) (by decide)).2.2.1

/-- Weighted selection on a token list whose entries before the last are
all zero lands in the last bin. -/
theorem chooseBin_all_zero_prefix :
    ∀ (ts : List Nat) (r : Nat),
      ts.dropLast.all (fun t => t = 0) = true → r < ts.sum →
      Histo.chooseBin ts r = ts.length - 1 := by
  intro ts
  induction ts with
  | nil =>
      intro r _ hr
      simp at hr
  | cons t rest ih =>
      intro r hz hr
      cases rest with
      | nil =>
          have hrt : r < t := by simpa using hr
          simp [Histo.chooseBin, hrt]
      | cons t2 rest2 =>
          have hz2 : t = 0 ∧ (t2 :: rest2).dropLast.all (fun x => x = 0) = true := by
            simpa using hz
          obtain ⟨ht0, hz3⟩ := hz2
          subst ht0
          have hr2 : r < (t2 :: rest2).sum := by simpa using hr
          have hrec := ih r hz3 hr2
          have hstep : Histo.chooseBin (0 :: t2 :: rest2) r =
              1 + Histo.chooseBin (t2 :: rest2) (r - 0) := by
            show (if r < 0 then 0 else 1 + Histo.chooseBin (t2 :: rest2) (r - 0)) = _
            simp
          rw [hstep, Nat.sub_zero, hrec]
          simp [List.length_cons]
          omega

/-- C8 (counterexample): the claim raises `BINS_EMPTY` whenever all
non-infinity bins hold zero tokens, yet also asserts that a histogram
with all its tokens in the infinity bin never fires `BINS_EMPTY` — and
such a histogram has all non-infinity bins at zero.  On the histogram
with token counts `[0, 0, 5]` (five infinity-bin tokens) sampling
returns the never-schedule sentinel, not `BINS_EMPTY`, so the first
conjunct as stated is false. -/
theorem C8_counterexample_infinity_tokens :
    Histo.Histogram.nonInfEmpty { tokens := [0, 0, 5], edges := [0, 1000, 2000] } = true ∧
    Histo.sampleHist { tokens := [0, 0, 5], edges := [0, 1000, 2000] } 0 0 =
      .infinite ∧
    Histo.sampleHist { tokens := [0, 0, 5], edges := [0, 1000, 2000] } 0 0 ≠
      .binsEmpty := by
  decide

/-- C8 (amended): sampling is two-step — select a bin weighted by the
token counts, then a bin below N yields a uniform delay inside its
half-open interval and bin N yields the never-schedule sentinel;
`BINS_EMPTY` is raised, arming no timer, exactly when the histogram
holds no tokens in any bin (the infinity bin included); and a histogram
whose tokens are all in the infinity bin always samples the sentinel,
never scheduling padding and never firing `BINS_EMPTY`. -/
theorem C8_histogram_sampling_amended (h : Histo.Histogram) (r1 r2 : Nat) :
    (h.tokens.sum = 0 → Histo.sampleHist h r1 r2 = .binsEmpty) ∧
    (Histo.sampleHist h r1 r2 = .binsEmpty → h.tokens.sum = 0) ∧
    (h.nonInfEmpty = true → h.tokens.sum ≠ 0 →
      Histo.sampleHist h r1 r2 = .infinite) ∧
    (h.tokens.sum ≠ 0 →
      Histo.chooseBin h.tokens (r1 % h.tokens.sum) < h.numBins →
      h.edges.getD (Histo.chooseBin h.tokens (r1 % h.tokens.sum)) 0 <
        h.edges.getD (Histo.chooseBin h.tokens (r1 % h.tokens.sum) + 1) 0 →
      ∃ d, Histo.sampleHist h r1 r2 = .delay d ∧
        h.edges.getD (Histo.chooseBin h.tokens (r1 % h.tokens.sum)) 0 ≤ d ∧
        d < h.edges.getD (Histo.chooseBin h.tokens (r1 % h.tokens.sum) + 1) 0) := by
  refine ⟨?_, ?_, ?_, ?_⟩
  · intro hs
    unfold Histo.sampleHist
    rw [if_pos hs]
  · intro hbe
    by_contra hs
    unfold Histo.sampleHist at hbe
    rw [if_neg hs] at hbe
    split at hbe
    · exact absurd hbe (by simp)
    · exact absurd hbe (by simp)
  · intro hempty hsum
    have hb := chooseBin_all_zero_prefix h.tokens (r1 % h.tokens.sum) hempty
      (Nat.mod_lt _ (Nat.pos_of_ne_zero hsum))
    unfold Histo.sampleHist
    rw [if_neg hsum, hb, if_neg (by unfold Histo.Histogram.numBins; omega)]
  · intro hsum hlt hedge
    unfold Histo.sampleHist
    rw [if_neg hsum, if_pos hlt]
    refine ⟨_, rfl, Nat.le_add_right _ _, ?_⟩
    have hmod := Nat.mod_lt r2 (show 0 <
      h.edges.getD (Histo.chooseBin h.tokens (r1 % h.tokens.sum) + 1) 0 -
        h.edges.getD (Histo.chooseBin h.tokens (r1 % h.tokens.sum)) 0 by omega)
    omega

/-- C8 (witness): a histogram whose three tokens all sit in the infinity
bin samples the never-schedule sentinel. -/
theorem C8_histogram_sampling_amended_witness :
    Histo.sampleHist { tokens := [0, 0, 3], edges := [0, 10, 20] } 5 0 = .infinite :=
  (C8_histogram_sampling_amended
    { tokens := [0, 0, 3], edges := [0, 10, 20] } 5 0).2.2.1 (by decide) (by decide)
